import Mathlib

/-!
Verification of the Unity log-analysis engine.

This file gives a shallow embedding of the rule-matching engine
(`analyzeLog` in the rules/analysis service module) and of the
issue-group sorting logic (`getSeverityWeight` / `groupedIssues` in
`src/pages/Analyzer.tsx`), and proves the specified properties about
them.

Modelling conventions:
* JS strings become Lean `String`/`List Char`; `String.prototype.length`
  counts UTF-16 units in JS and code points here, which agree on the
  inputs considered.
* JS `Array.prototype.sort` is a stable in-place sort; it is modelled by
  `List.insertionSort` with the relation "the comparator is ≤ 0", which
  is exactly the stable-sort specification.  Because the sort is
  in-place, the state of the caller's array when `analyzeLog` returns is
  surfaced as an explicit output (`AnalyzeResult.rulesAfter`), and the
  `console.error` diagnostics as `AnalyzeResult.consoleErrors`.
* `new RegExp(pat, 'i')` is modelled on the fragment of ECMAScript
  patterns made of literal characters and parenthesised groups: inside
  this fragment, compilation fails exactly when the parentheses are
  unbalanced, and — since a group around literals matches the same text
  as the literals themselves — a compiled pattern `exec` performs a
  case-insensitive search for the parenthesis-stripped literal body,
  returning the leftmost matched slice of the input (`match[0]`).
  Metacharacters other than parentheses are outside the modelled
  fragment.
* `performance.now()` and `new Date()` read the ambient clock; they are
  passed to `analyzeLog` as explicit `timestamp`/`durationMs` arguments.
-/

namespace UnityLog

/-- JS `String.prototype.includes` on character lists: `sub` occurs as a
contiguous, case-sensitive substring of the second argument. -/
def containsChars (sub : List Char) : List Char → Bool
  | [] => sub.isEmpty
  | c :: rest => sub.isPrefixOf (c :: rest) || containsChars sub rest

/-- JS `line.includes(k)` on strings. -/
def strIncludes (s sub : String) : Bool :=
  containsChars sub.data s.data

/-- Case-insensitive "starts with" on character lists (the `i` flag of the
modelled `RegExp` fragment). -/
def ciStartsWith : List Char → List Char → Bool
  | [], _ => true
  | _ :: _, [] => false
  | p :: ps, c :: cs => (p.toLower == c.toLower) && ciStartsWith ps cs

/-- `exec` of a compiled literal pattern: the leftmost case-insensitive
occurrence of `pat` in the input, returned as the matched slice of the
original input (JS `match[0]`). -/
def execLit (pat : List Char) : List Char → Option (List Char)
  | [] => if pat.isEmpty then some [] else none
  | c :: rest =>
    if ciStartsWith pat (c :: rest) then some ((c :: rest).take pat.length)
    else execLit pat rest

/-- Accumulator version of `fileContent.split(/\r?\n/)`: a separator is a
newline optionally preceded by a carriage return; a lone `\r` is ordinary
text. -/
def splitLinesAux : List Char → List Char → List String
  | [], acc => [String.mk acc.reverse]
  | '\r' :: '\n' :: rest, acc => String.mk acc.reverse :: splitLinesAux rest []
  | '\n' :: rest, acc => String.mk acc.reverse :: splitLinesAux rest []
  | c :: rest, acc => splitLinesAux rest (c :: acc)

/-- JS `fileContent.split(/\r?\n/)`.  Always returns at least one line;
on the empty string it returns a single empty line. -/
def splitLines (s : String) : List String :=
  splitLinesAux s.data []

/-- Fuelled scan for the global rewrite
`regex.replace(/\(\?P<[^>]+>/g, '(')`: every occurrence of `(?P<`,
followed by one or more non-`>` characters and a closing `>`, is
replaced by a single `(`; replacements are found left to right and do
not overlap.  Each step consumes at least one input character, so fuel
equal to the input length (as passed by `sanitizeChars`) is never
exhausted; the fuel only makes the recursion structural. -/
def sanitizeFuel : Nat → List Char → List Char
  | 0, l => l
  | fuel + 1, l =>
    match l with
    | '(' :: '?' :: 'P' :: '<' :: rest =>
      if rest.takeWhile (fun c => c ≠ '>') ≠ [] ∧ rest.dropWhile (fun c => c ≠ '>') ≠ [] then
        '(' :: sanitizeFuel fuel (rest.dropWhile (fun c => c ≠ '>')).tail
      else
        '(' :: sanitizeFuel fuel ('?' :: 'P' :: '<' :: rest)
    | c :: rest => c :: sanitizeFuel fuel rest
    | [] => []

/-- `regex.replace(/\(\?P<[^>]+>/g, '(')` on character lists. -/
def sanitizeChars (l : List Char) : List Char :=
  sanitizeFuel l.length l

/-- Scan of the sanitized pattern in the modelled `RegExp` fragment:
returns the literal body with the parentheses erased, or `none` when the
parentheses are unbalanced (the case in which `new RegExp` throws a
`SyntaxError`). -/
def parseLit : List Char → Nat → Option (List Char)
  | [], 0 => some []
  | [], _ + 1 => none
  | '(' :: rest, d => parseLit rest (d + 1)
  | ')' :: _, 0 => none
  | ')' :: rest, d + 1 => parseLit rest d
  | c :: rest, d => (parseLit rest d).map (fun l => c :: l)

/-- `safeRegex.includes('\\n') || safeRegex.includes('\n')`: the pattern
text contains an escaped-newline marker (backslash followed by `n`) or a
literal newline character. -/
def isMultilinePattern (s : String) : Bool :=
  containsChars ['\\', 'n'] s.data || containsChars ['\n'] s.data

inductive ErrorSeverity where
  | CRITICAL
  | ERROR
  | WARNING
deriving DecidableEq

structure LogRule where
  id : String
  name : String
  regex : String
  keywords : List String
  solution : String
  severity : ErrorSeverity
  weight : Int
deriving DecidableEq

structure AnalyzedIssue where
  ruleId : String
  ruleName : String
  severity : ErrorSeverity
  solution : String
  matchContent : String
  lineNumber : Nat
  context : List String
deriving DecidableEq

structure AnalysisReport where
  fileName : String
  totalLines : Nat
  timestamp : String
  issues : List AnalyzedIssue
  durationMs : Int
deriving DecidableEq

/-- `{...r, regExp, isMultiline}`: the rule together with its compiled
pattern (literal body of the modelled fragment) and multiline flag. -/
structure CompiledRule where
  rule : LogRule
  pat : List Char
  isMultiline : Bool
deriving DecidableEq

/-- One entry of the `rules.map(...)` compilation step: sanitize the
Python-style named groups, detect multiline patterns, and compile;
returns `none` (the source's `null`, later filtered out) when `new
RegExp` would throw. -/
def compileRule (r : LogRule) : Option CompiledRule :=
  match parseLit (sanitizeChars r.regex.data) 0 with
  | some body => some ⟨r, body, isMultilinePattern (String.mk (sanitizeChars r.regex.data))⟩
  | none => none

/-- The relation modelling the in-place stable sort
`rules.sort((a, b) => (b.weight || 0) - (a.weight || 0))`: element `a`
may stay in front of element `b` exactly when the comparator value is
≤ 0, i.e. `b.weight ≤ a.weight`. -/
def weightGE (a b : LogRule) : Prop := b.weight ≤ a.weight

instance : DecidableRel weightGE := fun a b =>
  inferInstanceAs (Decidable (b.weight ≤ a.weight))

instance : IsTotal LogRule weightGE := ⟨fun a b => Int.le_total b.weight a.weight⟩

instance : IsTrans LogRule weightGE := ⟨fun _ _ _ h1 h2 => le_trans h2 h1⟩

/-- The keyword prefilter: the rule is attempted only when its keyword
list is empty or some keyword occurs (case-sensitively) in the current
line. -/
def keywordPass (keywords : List String) (line : String) : Bool :=
  keywords.isEmpty || keywords.any (fun k => strIncludes line k)

/-- The joined window of up to 10 lines starting at `i` used for
multiline rules: `lines.slice(i, i + 10).join('\n')`. -/
def contextWindowJoin (lines : List String) (i : Nat) : String :=
  String.intercalate "\n" ((lines.drop i).take 10)

/-- `rule.regExp.exec(...)`: against the 10-line window for multiline
rules, against the single line otherwise. -/
def execRule (c : CompiledRule) (lines : List String) (i : Nat) (line : String) :
    Option (List Char) :=
  if c.isMultiline then execLit c.pat (contextWindowJoin lines i).data
  else execLit c.pat line.data

/-- The whole per-rule test of the inner loop: keyword prefilter, then
pattern evaluation. -/
def ruleAccepts (c : CompiledRule) (lines : List String) (i : Nat) (line : String) : Bool :=
  keywordPass c.rule.keywords line && (execRule c lines i line).isSome

/-- `CONTEXT_LINES` of the source. -/
def CONTEXT_LINES : Nat := 3

/-- `lines.slice(Math.max(0, i - 3), Math.min(lines.length, i + 3 + 1))`
(truncated subtraction is exactly `Math.max(0, i - 3)` on naturals). -/
def contextSlice (lines : List String) (i : Nat) : List String :=
  (lines.drop (i - CONTEXT_LINES)).take
    (min lines.length (i + CONTEXT_LINES + 1) - (i - CONTEXT_LINES))

/-- `match[0].split('\n')[0]`. -/
def firstLineChars (l : List Char) : List Char :=
  l.takeWhile (fun c => c ≠ '\n')

/-- JS `String.prototype.trim`: strip leading and trailing whitespace
(modelled on the common whitespace characters). -/
def strTrim (s : String) : String :=
  String.mk (((s.data.dropWhile Char.isWhitespace).reverse.dropWhile
    Char.isWhitespace).reverse)

/-- The issue record pushed on a successful match. -/
def mkIssue (c : CompiledRule) (lines : List String) (i : Nat) (line : String) :
    AnalyzedIssue :=
  let m0 := (execRule c lines i line).getD []
  let matchContent :=
    if c.isMultiline then String.mk (firstLineChars m0) ++ "..." else strTrim line
  { ruleId := c.rule.id
    ruleName := c.rule.name
    severity := c.rule.severity
    solution := c.rule.solution
    matchContent := matchContent
    lineNumber := i + 1
    context := contextSlice lines i }

/-- One iteration of the outer loop (`const line = lines[i]` is inlined
as `lines.getD i ""`; the default is never hit because `i` ranges over
the line indices): skip lines over the 2000-character cap, otherwise
take the first rule (in the already-sorted compiled list) that passes
the prefilter and matches, and record its issue. -/
def scanLine (compiled : List CompiledRule) (lines : List String) (i : Nat) :
    Option AnalyzedIssue :=
  if (lines.getD i "").length > 2000 then none
  else
    match compiled.find? (fun c => ruleAccepts c lines i (lines.getD i "")) with
    | some c => some (mkIssue c lines i (lines.getD i ""))
    | none => none

/-- Everything observable about one `analyzeLog` call: the returned
report, the state of the caller's (in-place sorted) rule array when the
call returns, and the `console.error` compile diagnostics. -/
structure AnalyzeResult where
  report : AnalysisReport
  rulesAfter : List LogRule
  consoleErrors : List String
deriving DecidableEq

/-- The engine `analyzeLog(fileContent, fileName, customRules)` with the
rules given explicitly (the storage fallback is outside the engine) and
the ambient clock values passed as arguments. -/
def analyzeLog (fileContent fileName : String) (rules : List LogRule)
    (timestamp : String) (durationMs : Int) : AnalyzeResult :=
  let sorted := List.insertionSort weightGE rules
  let lines := splitLines fileContent
  let compiled := sorted.filterMap compileRule
  let consoleErrors := (sorted.filter (fun r => (compileRule r).isNone)).map
    (fun r => "Invalid Regex for rule " ++ r.name ++ ": " ++ r.regex)
  let issues := (List.range lines.length).filterMap (scanLine compiled lines)
  { report :=
      { fileName := fileName
        totalLines := lines.length
        timestamp := timestamp
        issues := issues
        durationMs := durationMs }
    rulesAfter := sorted
    consoleErrors := consoleErrors }

/-- `getSeverityWeight` of `Analyzer.tsx`. -/
def getSeverityWeight (sev : ErrorSeverity) : Nat :=
  if sev = ErrorSeverity.CRITICAL then 3
  else if sev = ErrorSeverity.ERROR then 2
  else 1

/-- One presentation-side bucket of issues sharing a `ruleId`. -/
structure IssueGroup where
  ruleId : String
  ruleName : String
  severity : ErrorSeverity
  issues : List AnalyzedIssue
deriving DecidableEq

inductive GroupSortOrder where
  | severity_desc
  | count_desc
  | name_asc
deriving DecidableEq

/-- The `severity_desc` comparator of `groupedIssues`: severity weight
descending, member count descending on equal weights.  `a` may stay in
front of `b` exactly when the comparator value is ≤ 0. -/
def sevDescGE (a b : IssueGroup) : Prop :=
  if getSeverityWeight a.severity = getSeverityWeight b.severity
  then b.issues.length ≤ a.issues.length
  else getSeverityWeight b.severity ≤ getSeverityWeight a.severity

instance : DecidableRel sevDescGE := fun a b => by
  unfold sevDescGE; infer_instance

instance : IsTotal IssueGroup sevDescGE := by
  constructor
  intro a b
  unfold sevDescGE
  by_cases h : getSeverityWeight a.severity = getSeverityWeight b.severity
  · rw [if_pos h, if_pos h.symm]
    exact Nat.le_total b.issues.length a.issues.length
  · rw [if_neg h, if_neg (fun hba => h hba.symm)]
    exact Nat.le_total (getSeverityWeight b.severity) (getSeverityWeight a.severity)

instance : IsTrans IssueGroup sevDescGE := by
  constructor
  intro a b c hab hbc
  unfold sevDescGE at hab hbc ⊢
  by_cases h1 : getSeverityWeight a.severity = getSeverityWeight b.severity
  · rw [if_pos h1] at hab
    by_cases h2 : getSeverityWeight b.severity = getSeverityWeight c.severity
    · rw [if_pos h2] at hbc
      rw [if_pos (h1.trans h2)]
      exact le_trans hbc hab
    · rw [if_neg h2] at hbc
      rw [if_neg (fun h => h2 (h1.symm.trans h)), h1]
      exact hbc
  · rw [if_neg h1] at hab
    by_cases h2 : getSeverityWeight b.severity = getSeverityWeight c.severity
    · rw [if_pos h2] at hbc
      rw [if_neg (fun h => h1 (h.trans h2.symm)), ← h2]
      exact hab
    · rw [if_neg h2] at hbc
      by_cases h3 : getSeverityWeight a.severity = getSeverityWeight c.severity
      · exact absurd (le_antisymm (h3 ▸ hab) hbc) h2
      · rw [if_neg h3]
        exact le_trans hbc hab

/-- The `name_asc` comparator: `a.ruleName.localeCompare(b.ruleName)`,
with `localeCompare` modelled as the codepoint comparison underlying
Lean's linear order on `String`. -/
def nameAscLE (a b : IssueGroup) : Prop := a.ruleName ≤ b.ruleName

instance : DecidableRel nameAscLE := fun a b =>
  inferInstanceAs (Decidable (a.ruleName ≤ b.ruleName))

instance : IsTotal IssueGroup nameAscLE := ⟨fun a b => le_total a.ruleName b.ruleName⟩

instance : IsTrans IssueGroup nameAscLE := ⟨fun _ _ _ h1 h2 => le_trans h1 h2⟩

/-- The `count_desc` comparator. -/
def countDescGE (a b : IssueGroup) : Prop := b.issues.length ≤ a.issues.length

instance : DecidableRel countDescGE := fun a b =>
  inferInstanceAs (Decidable (b.issues.length ≤ a.issues.length))

/-- `result.sort(...)` of `groupedIssues` for each selectable order
(stable, as JS `Array.prototype.sort` is). -/
def sortGroups (order : GroupSortOrder) (gs : List IssueGroup) : List IssueGroup :=
  match order with
  | .severity_desc => List.insertionSort sevDescGE gs
  | .count_desc => List.insertionSort countDescGE gs
  | .name_asc => List.insertionSort nameAscLE gs

/-! ### Infrastructure lemmas -/

/-- The weight order carried over to compiled rules. -/
def cWeightGE (x y : CompiledRule) : Prop := y.rule.weight ≤ x.rule.weight

instance : DecidableRel cWeightGE := fun x y =>
  inferInstanceAs (Decidable (y.rule.weight ≤ x.rule.weight))

instance : IsTotal CompiledRule cWeightGE :=
  ⟨fun x y => Int.le_total y.rule.weight x.rule.weight⟩

instance : IsTrans CompiledRule cWeightGE := ⟨fun _ _ _ h1 h2 => le_trans h2 h1⟩

/-- Compilation never changes the rule carried inside a compiled rule. -/
theorem compileRule_rule {r : LogRule} {c : CompiledRule}
    (h : compileRule r = some c) : c.rule = r := by
  unfold compileRule at h
  split at h
  · cases h; rfl
  · cases h

/-- The first element surviving `dropWhile` fails the predicate. -/
theorem dropWhile_head_false {α : Type} (q : α → Bool) :
    ∀ (l : List α) (x : α) (tl : List α), l.dropWhile q = x :: tl → q x = false
  | [], x, tl, heq => by simp at heq
  | y :: l, x, tl, heq => by
    rw [List.dropWhile_cons] at heq
    by_cases hy : q y = true
    · rw [if_pos hy] at heq
      exact dropWhile_head_false q l x tl heq
    · rw [if_neg hy] at heq
      cases heq
      simpa using hy

/-- `find?` on the stable weight-descending sort of `l` returns the
element of `l` that satisfies the predicate with the largest weight,
and, among those of equal largest weight, the one occurring earliest in
`l`. -/
theorem find_insertionSort_best (p : CompiledRule → Bool) :
    ∀ (l : List CompiledRule) (m : CompiledRule),
      (List.insertionSort cWeightGE l).find? p = some m →
      m ∈ l ∧ p m = true ∧
        (∀ x ∈ l, p x = true → x.rule.weight ≤ m.rule.weight) ∧
        ∃ l1 l2, l = l1 ++ m :: l2 ∧
          ∀ x ∈ l1, p x = true → x.rule.weight < m.rule.weight := by
  intro l
  induction l with
  | nil => intro m h; simp [List.insertionSort] at h
  | cons a t ih =>
    intro m hfind
    have hins : List.insertionSort cWeightGE (a :: t) =
        List.orderedInsert cWeightGE a (List.insertionSort cWeightGE t) := rfl
    set s := List.insertionSort cWeightGE t with hs
    have hsort : List.Sorted cWeightGE s := List.sorted_insertionSort cWeightGE t
    rw [hins, List.orderedInsert_eq_take_drop] at hfind
    set q : CompiledRule → Bool := fun b => decide ¬cWeightGE a b with hq
    rw [List.find?_append] at hfind
    cases h1 : (s.takeWhile q).find? p with
    | some m1 =>
      rw [h1] at hfind
      have hm : m1 = m := by simpa using hfind
      subst hm
      have hfs : s.find? p = some m1 := by
        conv_lhs => rw [← List.takeWhile_append_dropWhile q s]
        rw [List.find?_append, h1]
        rfl
      obtain ⟨hm_t, hpm, hmax, l1, l2, hsplit, hstrict⟩ := ih m1 hfs
      have hma : a.rule.weight < m1.rule.weight := by
        have hqm := List.mem_takeWhile_imp (List.mem_of_find?_eq_some h1)
        rw [hq] at hqm
        simp only [decide_eq_true_eq, cWeightGE] at hqm
        omega
      refine ⟨List.mem_cons_of_mem a hm_t, hpm, ?_, a :: l1, l2, by rw [hsplit]; rfl, ?_⟩
      · intro x hx hpx
        rcases List.mem_cons.mp hx with hxa | hxt
        · rw [hxa]; exact le_of_lt hma
        · exact hmax x hxt hpx
      · intro x hx hpx
        rcases List.mem_cons.mp hx with hxa | hxl1
        · rw [hxa]; exact hma
        · exact hstrict x hxl1 hpx
    | none =>
      rw [h1] at hfind
      have hfind2 : (a :: s.dropWhile q).find? p = some m := by simpa using hfind
      by_cases hpa : p a = true
      · rw [List.find?_cons_of_pos _ hpa] at hfind2
        have hm : a = m := by simpa using hfind2
        subst hm
        refine ⟨List.mem_cons_self a t, hpa, ?_, [], t, rfl, by intro x hx; cases hx⟩
        intro x hx hpx
        rcases List.mem_cons.mp hx with hxa | hxt
        · rw [hxa]
        · have hx_s : x ∈ s := (List.mem_insertionSort cWeightGE).mpr hxt
          rw [← List.takeWhile_append_dropWhile q s] at hx_s
          rcases List.mem_append.mp hx_s with hx_tw | hx_dw
          · exact absurd hpx (List.find?_eq_none.mp h1 x hx_tw)
          · cases hdw : s.dropWhile q with
            | nil => rw [hdw] at hx_dw; cases hx_dw
            | cons h0 tt =>
              have hh0 : q h0 = false := dropWhile_head_false q s h0 tt hdw
              have hh0a : h0.rule.weight ≤ a.rule.weight := by
                rw [hq] at hh0
                simp only [decide_eq_false_iff_not, not_not, cWeightGE] at hh0
                exact hh0
              rw [hdw] at hx_dw
              rcases List.mem_cons.mp hx_dw with hxh0 | hx_tt
              · rw [hxh0]; exact hh0a
              · have hsorted2 : List.Sorted cWeightGE (h0 :: tt) := by
                  rw [← hdw]
                  exact List.Pairwise.sublist (List.dropWhile_sublist q) hsort
                have hrel := List.rel_of_sorted_cons hsorted2 x hx_tt
                simp only [cWeightGE] at hrel
                exact le_trans hrel hh0a
      · rw [List.find?_cons_of_neg _ hpa] at hfind2
        have hfs : s.find? p = some m := by
          conv_lhs => rw [← List.takeWhile_append_dropWhile q s]
          rw [List.find?_append, h1, hfind2]
          rfl
        obtain ⟨hm_t, hpm, hmax, l1, l2, hsplit, hstrict⟩ := ih m hfs
        refine ⟨List.mem_cons_of_mem a hm_t, hpm, ?_, a :: l1, l2,
          by rw [hsplit]; rfl, ?_⟩
        · intro x hx hpx
          rcases List.mem_cons.mp hx with hxa | hxt
          · exact absurd (hxa ▸ hpx) hpa
          · exact hmax x hxt hpx
        · intro x hx hpx
          rcases List.mem_cons.mp hx with hxa | hxl1
          · exact absurd (hxa ▸ hpx) hpa
          · exact hstrict x hxl1 hpx

/-- Inserting in front of a list it dominates. -/
theorem orderedInsert_eq_cons {c : CompiledRule} {l : List CompiledRule}
    (h : ∀ e ∈ l, cWeightGE c e) : List.orderedInsert cWeightGE c l = c :: l := by
  cases l with
  | nil => rfl
  | cons e es =>
    simp only [List.orderedInsert]
    rw [if_pos (h e (List.mem_cons_self e es))]

/-- Compiled rules keep the weight of their rule. -/
theorem compileRule_weight {r : LogRule} {c : CompiledRule}
    (h : compileRule r = some c) : c.rule.weight = r.weight := by
  rw [compileRule_rule h]

/-- On a weight-sorted tail, inserting and then compiling is compiling
and then inserting. -/
theorem filterMap_orderedInsert (a : LogRule) (l : List LogRule)
    (hl : List.Sorted weightGE l) :
    (List.orderedInsert weightGE a l).filterMap compileRule =
      match compileRule a with
      | some c => List.orderedInsert cWeightGE c (l.filterMap compileRule)
      | none => l.filterMap compileRule := by
  induction l with
  | nil =>
    cases hca : compileRule a with
    | none =>
      show ([a].filterMap compileRule) = ([] : List LogRule).filterMap compileRule
      simp [List.filterMap_cons, hca]
    | some c =>
      show ([a].filterMap compileRule) =
        List.orderedInsert cWeightGE c (([] : List LogRule).filterMap compileRule)
      simp [List.filterMap_cons, hca, List.orderedInsert]
  | cons b t ih =>
    by_cases hab : weightGE a b
    · have hoi : List.orderedInsert weightGE a (b :: t) = a :: b :: t := by
        simp only [List.orderedInsert]
        rw [if_pos hab]
      rw [hoi]
      cases hca : compileRule a with
      | none =>
        show (a :: b :: t).filterMap compileRule = (b :: t).filterMap compileRule
        rw [List.filterMap_cons_none hca]
      | some c =>
        show (a :: b :: t).filterMap compileRule =
          List.orderedInsert cWeightGE c ((b :: t).filterMap compileRule)
        have hall : ∀ e ∈ (b :: t).filterMap compileRule, cWeightGE c e := by
          intro e he
          obtain ⟨rb, hrb_mem, hrb⟩ := List.mem_filterMap.mp he
          have herule : e.rule = rb := compileRule_rule hrb
          have hcrule : c.rule = a := compileRule_rule hca
          have hwb : rb.weight ≤ a.weight := by
            rcases List.mem_cons.mp hrb_mem with hrbb | hrbt
            · rw [hrbb]; exact hab
            · exact le_trans (List.rel_of_sorted_cons hl rb hrbt) hab
          unfold cWeightGE
          rw [herule, hcrule]
          exact hwb
        rw [orderedInsert_eq_cons hall, List.filterMap_cons_some hca]
    · have hneg : List.orderedInsert weightGE a (b :: t) =
          b :: List.orderedInsert weightGE a t := by
        simp only [List.orderedInsert]
        rw [if_neg hab]
      rw [hneg]
      have hih := ih hl.of_cons
      cases hca : compileRule a with
      | none =>
        rw [hca] at hih
        have hih2 : (List.orderedInsert weightGE a t).filterMap compileRule =
            t.filterMap compileRule := hih
        show (b :: List.orderedInsert weightGE a t).filterMap compileRule =
          (b :: t).filterMap compileRule
        cases hcb : compileRule b with
        | none => rw [List.filterMap_cons_none hcb, List.filterMap_cons_none hcb, hih2]
        | some cb =>
          rw [List.filterMap_cons_some hcb, List.filterMap_cons_some hcb, hih2]
      | some c =>
        rw [hca] at hih
        have hih2 : (List.orderedInsert weightGE a t).filterMap compileRule =
            List.orderedInsert cWeightGE c (t.filterMap compileRule) := hih
        show (b :: List.orderedInsert weightGE a t).filterMap compileRule =
          List.orderedInsert cWeightGE c ((b :: t).filterMap compileRule)
        cases hcb : compileRule b with
        | none =>
          rw [List.filterMap_cons_none hcb, List.filterMap_cons_none hcb, hih2]
        | some cb =>
          have hnle : ¬cWeightGE c cb := by
            have hcbrule : cb.rule = b := compileRule_rule hcb
            have hcrule : c.rule = a := compileRule_rule hca
            unfold cWeightGE
            rw [hcbrule, hcrule]
            exact hab
          have hoi2 : List.orderedInsert cWeightGE c (cb :: t.filterMap compileRule) =
              cb :: List.orderedInsert cWeightGE c (t.filterMap compileRule) := by
            simp only [List.orderedInsert]
            rw [if_neg hnle]
          rw [List.filterMap_cons_some hcb, List.filterMap_cons_some hcb,
            hoi2, hih2]

/-- Sorting the raw rules and then compiling equals compiling in
original order and then sorting by weight: the compiled active set is
the stable weight-descending sort of the compiled rules taken in their
original order. -/
theorem filterMap_insertionSort (l : List LogRule) :
    (List.insertionSort weightGE l).filterMap compileRule =
      List.insertionSort cWeightGE (l.filterMap compileRule) := by
  induction l with
  | nil => rfl
  | cons a t ih =>
    have h1 : List.insertionSort weightGE (a :: t) =
        List.orderedInsert weightGE a (List.insertionSort weightGE t) := rfl
    rw [h1, filterMap_orderedInsert a _ (List.sorted_insertionSort weightGE t), ih]
    cases hca : compileRule a <;>
      simp [List.insertionSort, List.filterMap_cons, hca]

/-- Membership in the issue list of a report: exactly the successful
line scans, at their line index. -/
theorem mem_issues_iff {fc fn : String} {rules : List LogRule} {ts : String}
    {dur : Int} {issue : AnalyzedIssue} :
    issue ∈ (analyzeLog fc fn rules ts dur).report.issues ↔
      ∃ i, i < (splitLines fc).length ∧
        scanLine ((List.insertionSort weightGE rules).filterMap compileRule)
          (splitLines fc) i = some issue := by
  unfold analyzeLog
  simp only [List.mem_filterMap, List.mem_range]

/-- Inversion of one line scan. -/
theorem scanLine_eq_some {compiled : List CompiledRule} {lines : List String}
    {i : Nat} {issue : AnalyzedIssue}
    (h : scanLine compiled lines i = some issue) :
    (lines.getD i "").length ≤ 2000 ∧
      ∃ c, compiled.find? (fun c => ruleAccepts c lines i (lines.getD i "")) = some c ∧
        issue = mkIssue c lines i (lines.getD i "") := by
  unfold scanLine at h
  by_cases hlen : (lines.getD i "").length > 2000
  · rw [if_pos hlen] at h; cases h
  · rw [if_neg hlen] at h
    refine ⟨Nat.le_of_not_lt hlen, ?_⟩
    split at h
    · next c hc => exact ⟨c, hc, by cases h; rfl⟩
    · cases h

theorem mkIssue_lineNumber (c : CompiledRule) (lines : List String) (i : Nat)
    (line : String) : (mkIssue c lines i line).lineNumber = i + 1 := rfl

theorem mkIssue_context (c : CompiledRule) (lines : List String) (i : Nat)
    (line : String) : (mkIssue c lines i line).context = contextSlice lines i := rfl

theorem mkIssue_ruleId (c : CompiledRule) (lines : List String) (i : Nat)
    (line : String) : (mkIssue c lines i line).ruleId = c.rule.id := rfl

theorem mkIssue_ruleName (c : CompiledRule) (lines : List String) (i : Nat)
    (line : String) : (mkIssue c lines i line).ruleName = c.rule.name := rfl

theorem analyzeLog_issues (fc fn : String) (rules : List LogRule) (ts : String)
    (dur : Int) :
    (analyzeLog fc fn rules ts dur).report.issues =
      (List.range (splitLines fc).length).filterMap
        (scanLine ((List.insertionSort weightGE rules).filterMap compileRule)
          (splitLines fc)) := rfl

theorem analyzeLog_totalLines (fc fn : String) (rules : List LogRule) (ts : String)
    (dur : Int) :
    (analyzeLog fc fn rules ts dur).report.totalLines = (splitLines fc).length := rfl

theorem analyzeLog_rulesAfter (fc fn : String) (rules : List LogRule) (ts : String)
    (dur : Int) :
    (analyzeLog fc fn rules ts dur).rulesAfter = List.insertionSort weightGE rules := rfl

theorem analyzeLog_consoleErrors (fc fn : String) (rules : List LogRule) (ts : String)
    (dur : Int) :
    (analyzeLog fc fn rules ts dur).consoleErrors =
      ((List.insertionSort weightGE rules).filter (fun r => (compileRule r).isNone)).map
        (fun r => "Invalid Regex for rule " ++ r.name ++ ": " ++ r.regex) := rfl

/-- A non-empty string has non-empty character data. -/
theorem eq_empty_of_data_isEmpty {k : String} (h : k.data.isEmpty = true) : k = "" := by
  cases k with
  | mk data =>
    cases data with
    | nil => rfl
    | cons c cs => simp [List.isEmpty] at h

/-! ### Concrete rules and inputs used in the concrete scenarios -/

/-- The generic-failure rule of the initial knowledge base, reduced to the
modelled pattern fragment: case-insensitive literal `failed`, keywords
`Failed`/`failed`. -/
def ruleGeneric : LogRule :=
  { id := "7", name := "Generic Failure", regex := "failed",
    keywords := ["Failed", "failed"], solution := "check the context",
    severity := ErrorSeverity.ERROR, weight := 1 }

/-- A high-weight rule matching C# compiler errors (literal fragment). -/
def ruleCS : LogRule :=
  { id := "3", name := "CS Error", regex := "error CS",
    keywords := ["error", "CS"], solution := "fix the compile error",
    severity := ErrorSeverity.CRITICAL, weight := 100 }

/-- A rule whose pattern has an unbalanced parenthesis: `new RegExp`
throws on it. -/
def ruleBadParen : LogRule :=
  { id := "b", name := "Broken", regex := "(abc",
    keywords := [], solution := "unused",
    severity := ErrorSeverity.ERROR, weight := 5 }

/-- A valid rule matching the literal `error`. -/
def ruleError : LogRule :=
  { id := "g", name := "Error rule", regex := "error",
    keywords := ["error"], solution := "look above",
    severity := ErrorSeverity.ERROR, weight := 10 }

/-- A multiline rule: its pattern contains a literal newline, so it is
evaluated against the joined 10-line window. -/
def ruleMulti : LogRule :=
  { id := "10", name := "Fatal block", regex := "FATAL\nStack",
    keywords := [], solution := "inspect the stack",
    severity := ErrorSeverity.CRITICAL, weight := 5 }

/-- A rule with an empty pattern and no keywords: the empty pattern
matches every line, including the empty one. -/
def ruleEmptyPat : LogRule :=
  { id := "9", name := "Match anything", regex := "",
    keywords := [], solution := "unused",
    severity := ErrorSeverity.WARNING, weight := 1 }

/-- The issue `analyzeLog "error here" _ [ruleError] _ _` emits. -/
def issueErrHere : AnalyzedIssue :=
  { ruleId := "g", ruleName := "Error rule", severity := ErrorSeverity.ERROR,
    solution := "look above", matchContent := "error here", lineNumber := 1,
    context := ["error here"] }

/-! ### Claims -/

/-- C4 (counterexample): the claim that `analyzeLog` leaves the
caller-provided rule sequence element-for-element identical fails: with
rules of weights 1 and 10 in that order, the in-place
`rules.sort((a, b) => b.weight - a.weight)` reorders the caller's array
to weights 10, 1. -/
theorem c4_counterexample :
    (analyzeLog "" "log.txt" [ruleGeneric, ruleError] "" 0).rulesAfter ≠
      [ruleGeneric, ruleError] := by decide

/-- C4 (amended): a scan sorts the caller-provided rule collection in
place: when `analyzeLog` returns, the caller's sequence is the stable
weight-descending sort of its previous value — a permutation carrying
the same elements, equal to the original only when the original was
already so sorted. -/
theorem c4_rules_after_sorted (fileContent fileName : String) (rules : List LogRule)
    (ts : String) (dur : Int) :
    (analyzeLog fileContent fileName rules ts dur).rulesAfter =
        List.insertionSort weightGE rules ∧
      ((analyzeLog fileContent fileName rules ts dur).rulesAfter).Perm rules ∧
      List.Sorted weightGE (analyzeLog fileContent fileName rules ts dur).rulesAfter :=
  ⟨rfl, List.perm_insertionSort weightGE rules, List.sorted_insertionSort weightGE rules⟩

/-- C8: scanning the same `(text, rules)` pair twice yields reports with
identical `issues` and `totalLines`, with `timestamp`/`durationMs` free
to differ; this holds both for two calls on the original sequence and
for a second call on the array as the first call left it (sorted in
place), because the stable sort is idempotent. -/
theorem c8_idempotent (fileContent fileName : String) (rules : List LogRule)
    (ts1 ts2 : String) (dur1 dur2 : Int) :
    ((analyzeLog fileContent fileName rules ts1 dur1).report.issues =
        (analyzeLog fileContent fileName rules ts2 dur2).report.issues ∧
      (analyzeLog fileContent fileName rules ts1 dur1).report.totalLines =
        (analyzeLog fileContent fileName rules ts2 dur2).report.totalLines) ∧
    ((analyzeLog fileContent fileName rules ts1 dur1).report.issues =
        (analyzeLog fileContent fileName
          (analyzeLog fileContent fileName rules ts1 dur1).rulesAfter
          ts2 dur2).report.issues ∧
      (analyzeLog fileContent fileName rules ts1 dur1).report.totalLines =
        (analyzeLog fileContent fileName
          (analyzeLog fileContent fileName rules ts1 dur1).rulesAfter
          ts2 dur2).report.totalLines) := by
  have hsorted : List.insertionSort weightGE (List.insertionSort weightGE rules) =
      List.insertionSort weightGE rules :=
    (List.sorted_insertionSort weightGE rules).insertionSort_eq
  refine ⟨⟨rfl, rfl⟩, ?_, ?_⟩
  · rw [analyzeLog_rulesAfter, analyzeLog_issues, analyzeLog_issues, hsorted]
  · rw [analyzeLog_rulesAfter, analyzeLog_totalLines, analyzeLog_totalLines]

/-- C7 (counterexample): the claim that a zero-length log always yields
an empty issues sequence fails: a rule with no keywords and an empty
pattern matches the single empty line that the split produces. -/
theorem c7_counterexample :
    (analyzeLog "" "log.txt" [ruleEmptyPat] "" 0).report.issues ≠ [] := by decide

/-- C7 (amended): scanning a zero-length log yields a valid report with
`totalLines = 1` (the split yields a single empty line); its issues
sequence is empty provided every rule has a non-empty keyword list not
containing the empty string (so that the prefilter rejects every rule on
the empty line). -/
theorem c7_empty_input (fileName : String) (rules : List LogRule) (ts : String)
    (dur : Int) (hkw : ∀ r ∈ rules, r.keywords ≠ [] ∧ ¬("" ∈ r.keywords)) :
    (analyzeLog "" fileName rules ts dur).report.totalLines = 1 ∧
      (analyzeLog "" fileName rules ts dur).report.issues = [] := by
  have hsplit : splitLines "" = [""] := rfl
  constructor
  · rw [analyzeLog_totalLines, hsplit]
    rfl
  · rw [analyzeLog_issues, hsplit]
    show ([0] : List Nat).filterMap
      (scanLine ((List.insertionSort weightGE rules).filterMap compileRule) [""]) = []
    have hscan : scanLine ((List.insertionSort weightGE rules).filterMap compileRule)
        [""] 0 = none := by
      unfold scanLine
      rw [if_neg (by norm_num)]
      have hfind : ((List.insertionSort weightGE rules).filterMap compileRule).find?
          (fun c => ruleAccepts c [""] 0 (([""] : List String).getD 0 "")) = none := by
        rw [List.find?_eq_none]
        intro c hc
        obtain ⟨r, hr_mem, hr⟩ := List.mem_filterMap.mp hc
        have hrule : c.rule = r := compileRule_rule hr
        have hr_rules : r ∈ rules := (List.mem_insertionSort weightGE).mp hr_mem
        obtain ⟨hne, hnotmem⟩ := hkw r hr_rules
        have hkwfalse : keywordPass c.rule.keywords "" = false := by
          unfold keywordPass
          rw [hrule]
          have h1 : r.keywords.isEmpty = false := by
            cases hkeys : r.keywords with
            | nil => exact absurd hkeys hne
            | cons x xs => rfl
          rw [h1, Bool.false_or, List.any_eq_false]
          intro k hk
          intro habs
          have : k = "" := eq_empty_of_data_isEmpty habs
          exact hnotmem (this ▸ hk)
        show ¬(ruleAccepts c [""] 0 (([""] : List String).getD 0 "") = true)
        unfold ruleAccepts
        have hgd : (([""] : List String).getD 0 "") = "" := rfl
        rw [hgd, hkwfalse, Bool.false_and]
        exact Bool.false_ne_true
      rw [hfind]
    rw [List.filterMap_cons_none hscan]
    rfl

/-- C7 (witness of the amended claim): with the single `error` rule,
scanning the empty log returns `totalLines = 1` and no issue. -/
theorem c7_empty_input_witness :
    (analyzeLog "" "log.txt" [ruleError] "" 0).report.totalLines = 1 ∧
      (analyzeLog "" "log.txt" [ruleError] "" 0).report.issues = [] :=
  c7_empty_input "log.txt" [ruleError] "" 0 (by decide)

/-- C3: with a rule set made of one rule whose pattern fails to compile
and one valid rule, the scan completes with exactly the issues the valid
rule alone would find, and exactly one compile diagnostic, naming the
invalid rule, is emitted on the `console.error` channel (the spec's
"logged separately from the report" option). -/
theorem c3_compile_error_isolated (fileContent fileName : String) (ts : String)
    (dur : Int) (rBad rGood : LogRule) (hbad : compileRule rBad = none)
    (hgood : (compileRule rGood).isSome = true) :
    (analyzeLog fileContent fileName [rBad, rGood] ts dur).report.issues =
        (analyzeLog fileContent fileName [rGood] ts dur).report.issues ∧
      (analyzeLog fileContent fileName [rBad, rGood] ts dur).consoleErrors =
        ["Invalid Regex for rule " ++ rBad.name ++ ": " ++ rBad.regex] := by
  obtain ⟨cGood, hcg⟩ := Option.isSome_iff_exists.mp hgood
  have hbad_isNone : (compileRule rBad).isNone = true := by rw [hbad]; rfl
  have hgood_isNone : ¬((compileRule rGood).isNone = true) := by rw [hcg]; simp
  have hsingle : List.insertionSort weightGE [rGood] = [rGood] := rfl
  have hpair : List.insertionSort weightGE [rBad, rGood] = [rBad, rGood] ∨
      List.insertionSort weightGE [rBad, rGood] = [rGood, rBad] := by
    have : List.insertionSort weightGE [rBad, rGood] =
        List.orderedInsert weightGE rBad [rGood] := rfl
    rw [this]
    simp only [List.orderedInsert]
    by_cases h : weightGE rBad rGood
    · left; rw [if_pos h]
    · right; rw [if_neg h]
  have hfm : (List.insertionSort weightGE [rBad, rGood]).filterMap compileRule =
      [cGood] := by
    rcases hpair with h | h <;> rw [h]
    · rw [List.filterMap_cons_none hbad, List.filterMap_cons_some hcg]
      rfl
    · rw [List.filterMap_cons_some hcg, List.filterMap_cons_none hbad]
      rfl
  have hfm1 : (List.insertionSort weightGE [rGood]).filterMap compileRule = [cGood] := by
    rw [hsingle, List.filterMap_cons_some hcg]
    rfl
  constructor
  · rw [analyzeLog_issues, analyzeLog_issues, hfm, hfm1]
  · rw [analyzeLog_consoleErrors]
    rcases hpair with h | h <;> rw [h] <;>
      simp [List.filter_cons, hbad, hcg]

/-- C3 (witness): the unbalanced-parenthesis rule next to the valid
`error` rule — the valid rule's issues are all returned and exactly one
diagnostic names the broken rule. -/
theorem c3_compile_error_isolated_witness :
    (analyzeLog "xx\nerror found\nok" "log.txt" [ruleBadParen, ruleError] "" 0).report.issues =
        (analyzeLog "xx\nerror found\nok" "log.txt" [ruleError] "" 0).report.issues ∧
      (analyzeLog "xx\nerror found\nok" "log.txt" [ruleBadParen, ruleError] "" 0).consoleErrors =
        ["Invalid Regex for rule " ++ ruleBadParen.name ++ ": " ++ ruleBadParen.regex] :=
  c3_compile_error_isolated "xx\nerror found\nok" "log.txt" "" 0 ruleBadParen ruleError
    (by decide) (by decide)

/-- C2 (counterexample): the keyword prefilter is case-sensitive while
the pattern is compiled case-insensitively, so it is not sound with
respect to the compiled pattern: for the generic-failure rule (keywords
`Failed`/`failed`, pattern `failed` compiled with the `i` flag) and the
line `FAILED to load`, no keyword is a substring of the line, yet the
compiled pattern matches it — and the scan accordingly loses the match
and reports no issue. -/
theorem c2_counterexample :
    (∀ k ∈ ruleGeneric.keywords, strIncludes "FAILED to load" k = false) ∧
      compileRule ruleGeneric = some ⟨ruleGeneric, "failed".data, false⟩ ∧
      (execLit "failed".data "FAILED to load".data).isSome = true ∧
      (analyzeLog "FAILED to load" "log.txt" [ruleGeneric] "" 0).report.issues = [] := by
  refine ⟨by decide, by decide, by decide, by decide⟩

/-- C2 (amended): the prefilter never loses a match relative to
case-sensitive keyword occurrence — every emitted issue comes from a
rule whose keyword list is empty or one of whose keywords occurs
verbatim in the matched line — but, the pattern being compiled
case-insensitively, skipping a rule on prefilter failure can lose a
match that pattern evaluation would have found. -/
theorem c2_keyword_gate (fileContent fileName : String) (rules : List LogRule)
    (ts : String) (dur : Int) (issue : AnalyzedIssue)
    (hmem : issue ∈ (analyzeLog fileContent fileName rules ts dur).report.issues) :
    ∃ r ∈ rules, issue.ruleId = r.id ∧ issue.ruleName = r.name ∧
      (r.keywords = [] ∨ ∃ k ∈ r.keywords,
        strIncludes ((splitLines fileContent).getD (issue.lineNumber - 1) "") k = true) := by
  obtain ⟨i, hi, hscan⟩ := mem_issues_iff.mp hmem
  obtain ⟨hlen, c, hfind, hissue⟩ := scanLine_eq_some hscan
  have hpc := List.find?_some hfind
  have hc_mem := List.mem_of_find?_eq_some hfind
  obtain ⟨r, hr_mem, hr⟩ := List.mem_filterMap.mp hc_mem
  have hrule : c.rule = r := compileRule_rule hr
  have hr_rules : r ∈ rules := (List.mem_insertionSort weightGE).mp hr_mem
  have hidx : issue.lineNumber - 1 = i := by
    rw [hissue, mkIssue_lineNumber]
    omega
  refine ⟨r, hr_rules, ?_, ?_, ?_⟩
  · rw [hissue, mkIssue_ruleId, hrule]
  · rw [hissue, mkIssue_ruleName, hrule]
  · rw [hidx]
    unfold ruleAccepts at hpc
    rw [Bool.and_eq_true] at hpc
    have hkw := hpc.1
    unfold keywordPass at hkw
    rw [Bool.or_eq_true] at hkw
    rcases hkw with hkw | hkw
    · left
      rw [hrule] at hkw
      exact List.isEmpty_iff.mp hkw
    · right
      rw [hrule] at hkw
      rw [List.any_eq_true] at hkw
      exact hkw

/-- C2 (witness of the amended claim): the issue found on `error here`
comes from the `error` rule, whose keyword `error` occurs verbatim in
the line. -/
theorem c2_keyword_gate_witness :
    ∃ r ∈ [ruleError], issueErrHere.ruleId = r.id ∧ issueErrHere.ruleName = r.name ∧
      (r.keywords = [] ∨ ∃ k ∈ r.keywords,
        strIncludes ((splitLines "error here").getD (issueErrHere.lineNumber - 1) "") k
          = true) :=
  c2_keyword_gate "error here" "log.txt" [ruleError] "" 0 issueErrHere (by decide)

/-- C9: sorting groups with `severity_desc` yields a sequence sorted by
the comparator (severity ordinal `CRITICAL = 3 > ERROR = 2 > WARNING = 1`
as primary key, member count descending as secondary key), hence every
CRITICAL group precedes every ERROR group and every ERROR group precedes
every WARNING group regardless of counts; and running `name_asc` twice
yields the ordering of a single run. -/
theorem c9_group_sort (gs : List IssueGroup) :
    getSeverityWeight ErrorSeverity.CRITICAL = 3 ∧
      getSeverityWeight ErrorSeverity.ERROR = 2 ∧
      getSeverityWeight ErrorSeverity.WARNING = 1 ∧
      List.Sorted sevDescGE (sortGroups GroupSortOrder.severity_desc gs) ∧
      List.Sorted (fun a b => getSeverityWeight b.severity ≤ getSeverityWeight a.severity)
        (sortGroups GroupSortOrder.severity_desc gs) ∧
      sortGroups GroupSortOrder.name_asc (sortGroups GroupSortOrder.name_asc gs) =
        sortGroups GroupSortOrder.name_asc gs := by
  refine ⟨rfl, rfl, rfl, ?_, ?_, ?_⟩
  · exact List.sorted_insertionSort sevDescGE gs
  · have h := List.sorted_insertionSort sevDescGE gs
    refine List.Pairwise.imp ?_ h
    intro a b hab
    unfold sevDescGE at hab
    by_cases hw : getSeverityWeight a.severity = getSeverityWeight b.severity
    · rw [hw]
    · rw [if_neg hw] at hab
      exact hab
  · exact (List.sorted_insertionSort nameAscLE gs).insertionSort_eq

/-- C10: for a multiline rule the issue's `lineNumber` is the 1-based
index of the window's first line even when the match begins further into
the window, and a single multi-line occurrence can yield one issue per
window start containing it: with the pattern `FATAL\nStack` spanning
lines 2–3 of a 4-line log, two issues are emitted, anchored at lines 1
and 2, although the match does not begin on line 1 (the pattern finds
nothing in `intro` alone). -/
theorem c10_multiline_anchor :
    (analyzeLog "intro\nFATAL\nStack trace\nend" "log.txt" [ruleMulti] "" 0).report.issues =
        [{ ruleId := "10", ruleName := "Fatal block",
           severity := ErrorSeverity.CRITICAL, solution := "inspect the stack",
           matchContent := "FATAL...", lineNumber := 1,
           context := ["intro", "FATAL", "Stack trace", "end"] },
         { ruleId := "10", ruleName := "Fatal block",
           severity := ErrorSeverity.CRITICAL, solution := "inspect the stack",
           matchContent := "FATAL...", lineNumber := 2,
           context := ["intro", "FATAL", "Stack trace", "end"] }] ∧
      execLit "FATAL\nStack".data "intro".data = none ∧
      (execLit "FATAL\nStack".data
        (contextWindowJoin (splitLines "intro\nFATAL\nStack trace\nend") 0).data).isSome
          = true := by
  refine ⟨by decide, by decide, by decide⟩

/-- C1: for every emitted issue there is a winning rule `w` in the
compiled active set (the rules of the caller's sequence that compile,
kept in their original relative order) such that the issue carries `w`'s
id, `w` matches the issue's line, every active rule matching that line
has weight at most `w`'s, and every active rule occurring before `w` in
the original order that matches the line has strictly smaller weight:
the issue carries the id of the highest-weight matching rule, ties
resolved to the earliest in the original rule-set order ("matching"
being the full per-rule evaluation of the inner loop: keyword prefilter
followed by pattern evaluation). -/
theorem c1_priority_invariant (fileContent fileName : String) (rules : List LogRule)
    (ts : String) (dur : Int) (issue : AnalyzedIssue)
    (hmem : issue ∈ (analyzeLog fileContent fileName rules ts dur).report.issues) :
    ∃ w ∈ rules.filterMap compileRule,
      w.rule.id = issue.ruleId ∧
      ruleAccepts w (splitLines fileContent) (issue.lineNumber - 1)
          ((splitLines fileContent).getD (issue.lineNumber - 1) "") = true ∧
      (∀ c ∈ rules.filterMap compileRule,
        ruleAccepts c (splitLines fileContent) (issue.lineNumber - 1)
            ((splitLines fileContent).getD (issue.lineNumber - 1) "") = true →
          c.rule.weight ≤ w.rule.weight) ∧
      ∃ l1 l2, rules.filterMap compileRule = l1 ++ w :: l2 ∧
        ∀ c ∈ l1,
          ruleAccepts c (splitLines fileContent) (issue.lineNumber - 1)
              ((splitLines fileContent).getD (issue.lineNumber - 1) "") = true →
            c.rule.weight < w.rule.weight := by
  obtain ⟨i, hi, hscan⟩ := mem_issues_iff.mp hmem
  obtain ⟨hlen, c, hfind, hissue⟩ := scanLine_eq_some hscan
  have hidx : issue.lineNumber - 1 = i := by
    rw [hissue, mkIssue_lineNumber]
    omega
  rw [filterMap_insertionSort] at hfind
  obtain ⟨hc_mem, hpc, hmax, l1, l2, hsplit, hstrict⟩ :=
    find_insertionSort_best _ _ c hfind
  refine ⟨c, hc_mem, ?_, ?_, ?_, l1, l2, hsplit, ?_⟩
  · rw [hissue, mkIssue_ruleId]
  · rw [hidx]
    exact hpc
  · intro x hx hpx
    rw [hidx] at hpx
    exact hmax x hx hpx
  · intro x hx hpx
    rw [hidx] at hpx
    exact hstrict x hx hpx

/-- The issue the CS rule wins on `error CS0029 failed` although the
lower-weight generic rule also matches that line. -/
def issueCS : AnalyzedIssue :=
  { ruleId := "3", ruleName := "CS Error", severity := ErrorSeverity.CRITICAL,
    solution := "fix the compile error", matchContent := "error CS0029 failed",
    lineNumber := 1, context := ["error CS0029 failed"] }

/-- C1 (witness): on `error CS0029 failed` with the generic rule
(weight 1) listed before the CS rule (weight 100), both rules match and
the emitted issue carries the CS rule's id. -/
theorem c1_priority_invariant_witness :
    ∃ w ∈ [ruleGeneric, ruleCS].filterMap compileRule,
      w.rule.id = issueCS.ruleId ∧
      ruleAccepts w (splitLines "error CS0029 failed") (issueCS.lineNumber - 1)
          ((splitLines "error CS0029 failed").getD (issueCS.lineNumber - 1) "") = true ∧
      (∀ c ∈ [ruleGeneric, ruleCS].filterMap compileRule,
        ruleAccepts c (splitLines "error CS0029 failed") (issueCS.lineNumber - 1)
            ((splitLines "error CS0029 failed").getD (issueCS.lineNumber - 1) "") = true →
          c.rule.weight ≤ w.rule.weight) ∧
      ∃ l1 l2, [ruleGeneric, ruleCS].filterMap compileRule = l1 ++ w :: l2 ∧
        ∀ c ∈ l1,
          ruleAccepts c (splitLines "error CS0029 failed") (issueCS.lineNumber - 1)
              ((splitLines "error CS0029 failed").getD (issueCS.lineNumber - 1) "") = true →
            c.rule.weight < w.rule.weight :=
  c1_priority_invariant "error CS0029 failed" "log.txt" [ruleGeneric, ruleCS] "" 0
    issueCS (by decide)

/-- An element of the clamped window, taken from the underlying list. -/
theorem getD_mem_take_drop (lines : List String) (s len i : Nat)
    (h1 : s ≤ i) (h2 : i - s < len) (h3 : i < lines.length) :
    lines.getD i "" ∈ (lines.drop s).take len := by
  refine List.mem_iff_getElem.mpr ⟨i - s, ?_, ?_⟩
  · rw [List.length_take, List.length_drop]
    omega
  · rw [List.getElem_take, List.getElem_drop, List.getD_eq_getElem lines "" h3]
    congr 1
    omega

/-- C5: a line longer than 2000 characters never anchors an issue,
whatever the rules; yet it still counts toward `totalLines`, and every
issue's context is the raw slice of the split lines around its anchor,
so an overlong line within three lines of an issue's anchor still
appears in that issue's context window. -/
theorem c5_length_cap (fileContent fileName : String) (rules : List LogRule)
    (ts : String) (dur : Int) (i : Nat)
    (hlong : 2000 < ((splitLines fileContent).getD i "").length) :
    (∀ issue ∈ (analyzeLog fileContent fileName rules ts dur).report.issues,
        issue.lineNumber ≠ i + 1) ∧
      (analyzeLog fileContent fileName rules ts dur).report.totalLines =
        (splitLines fileContent).length ∧
      (∀ issue ∈ (analyzeLog fileContent fileName rules ts dur).report.issues,
        issue.context = contextSlice (splitLines fileContent) (issue.lineNumber - 1)) ∧
      (∀ issue ∈ (analyzeLog fileContent fileName rules ts dur).report.issues,
        issue.lineNumber - 1 ≤ i + 3 → i ≤ issue.lineNumber - 1 + 3 →
          (splitLines fileContent).getD i "" ∈ issue.context) := by
  refine ⟨?_, rfl, ?_, ?_⟩
  · intro issue hmem hcontra
    obtain ⟨j, hj, hscan⟩ := mem_issues_iff.mp hmem
    obtain ⟨hlen, c, hfind, hissue⟩ := scanLine_eq_some hscan
    have hln : issue.lineNumber = j + 1 := by rw [hissue, mkIssue_lineNumber]
    have hij : j = i := by omega
    rw [hij] at hlen
    omega
  · intro issue hmem
    obtain ⟨j, hj, hscan⟩ := mem_issues_iff.mp hmem
    obtain ⟨hlen, c, hfind, hissue⟩ := scanLine_eq_some hscan
    have hln : issue.lineNumber - 1 = j := by
      rw [hissue, mkIssue_lineNumber]
      omega
    rw [hln, hissue, mkIssue_context]
  · intro issue hmem h1 h2
    obtain ⟨j, hj, hscan⟩ := mem_issues_iff.mp hmem
    obtain ⟨hlen, c, hfind, hissue⟩ := scanLine_eq_some hscan
    have hln : issue.lineNumber - 1 = j := by
      rw [hissue, mkIssue_lineNumber]
      omega
    rw [hln] at h1 h2
    have hiN : i < (splitLines fileContent).length := by
      by_contra hge
      rw [List.getD_eq_default _ _ (Nat.le_of_not_lt hge)] at hlong
      simp at hlong
    have hctx : issue.context = contextSlice (splitLines fileContent) j := by
      rw [hissue, mkIssue_context]
    rw [hctx]
    unfold contextSlice CONTEXT_LINES
    exact getD_mem_take_drop (splitLines fileContent) (j - 3)
      (min (splitLines fileContent).length (j + 3 + 1) - (j - 3)) i
      (by omega) (by omega) hiN

/-- A line of 2001 characters, sitting above the 2000-character cap. -/
def longLine : String := String.mk (List.replicate 2001 'a')

/-- A log whose first line is over the length cap and whose second line
matches the `error` rule. -/
def c5text : String := longLine ++ "\nerror here"

/-- Splitting a newline-terminated run of ordinary characters peels off
one line. -/
theorem splitLinesAux_replicate_a (n : Nat) (s : List Char) :
    ∀ acc, splitLinesAux (List.replicate n 'a' ++ '\n' :: s) acc =
      String.mk (acc.reverse ++ List.replicate n 'a') :: splitLinesAux s [] := by
  induction n with
  | zero =>
    intro acc
    show String.mk acc.reverse :: splitLinesAux s [] = _
    rw [List.replicate]
    rw [List.append_nil]
  | succ k ih =>
    intro acc
    rw [List.replicate_succ, List.cons_append]
    show splitLinesAux (List.replicate k 'a' ++ '\n' :: s) ('a' :: acc) = _
    rw [ih ('a' :: acc)]
    have hacc : ('a' :: acc).reverse ++ List.replicate k 'a' =
        acc.reverse ++ List.replicate (k + 1) 'a' := by
      rw [List.reverse_cons, List.append_assoc, List.replicate_succ]
      rfl
    rw [hacc, List.replicate_succ]

/-- The split of the two-line log `c5text`. -/
theorem splitLines_c5text : splitLines c5text = [longLine, "error here"] := by
  have hdata : c5text.data = List.replicate 2001 'a' ++ '\n' :: "error here".data := by
    show (longLine ++ "\nerror here").data = _
    rw [String.data_append]
    rfl
  unfold splitLines
  rw [hdata, splitLinesAux_replicate_a]
  rfl

/-- The first line of `c5text` is longer than the cap. -/
theorem c5text_first_line_long : 2000 < ((splitLines c5text).getD 0 "").length := by
  rw [splitLines_c5text]
  show 2000 < longLine.length
  show 2000 < (List.replicate 2001 'a').length
  rw [List.length_replicate]
  omega

/-- C5 (witness): with the overlong first line of `c5text`, no issue is
anchored at line 1, the line still counts toward `totalLines`, and it
still appears in the context of any issue anchored within three lines
of it. -/
theorem c5_length_cap_witness :
    (∀ issue ∈ (analyzeLog c5text "log.txt" [ruleError] "" 0).report.issues,
        issue.lineNumber ≠ 0 + 1) ∧
      (analyzeLog c5text "log.txt" [ruleError] "" 0).report.totalLines =
        (splitLines c5text).length ∧
      (∀ issue ∈ (analyzeLog c5text "log.txt" [ruleError] "" 0).report.issues,
        issue.context = contextSlice (splitLines c5text) (issue.lineNumber - 1)) ∧
      (∀ issue ∈ (analyzeLog c5text "log.txt" [ruleError] "" 0).report.issues,
        issue.lineNumber - 1 ≤ 0 + 3 → 0 ≤ issue.lineNumber - 1 + 3 →
          (splitLines c5text).getD 0 "" ∈ issue.context) :=
  c5_length_cap c5text "log.txt" [ruleError] "" 0 0 c5text_first_line_long

/-- C6: every issue is anchored inside the file (`lineNumber - 1 < N`),
its context is exactly the clamped inclusive slice of the raw lines from
`max(0, i-3)` to `min(i+3, N-1)` (truncated natural subtraction is the
clamping at 0), its length is `min(i+3, N-1) - max(0, i-3) + 1`, and
every element of the context is an element of the split line list — the
construction never reaches outside the file. -/
theorem c6_context_bounds (fileContent fileName : String) (rules : List LogRule)
    (ts : String) (dur : Int) (issue : AnalyzedIssue)
    (hmem : issue ∈ (analyzeLog fileContent fileName rules ts dur).report.issues) :
    issue.lineNumber - 1 < (splitLines fileContent).length ∧
      issue.context =
        ((splitLines fileContent).drop (issue.lineNumber - 1 - 3)).take
          (min (issue.lineNumber - 1 + 3) ((splitLines fileContent).length - 1) + 1 -
            (issue.lineNumber - 1 - 3)) ∧
      issue.context.length =
        min (issue.lineNumber - 1 + 3) ((splitLines fileContent).length - 1) -
            (issue.lineNumber - 1 - 3) + 1 ∧
      ∀ s ∈ issue.context, s ∈ splitLines fileContent := by
  obtain ⟨i, hi, hscan⟩ := mem_issues_iff.mp hmem
  obtain ⟨hlen, c, hfind, hissue⟩ := scanLine_eq_some hscan
  have hln : issue.lineNumber - 1 = i := by
    rw [hissue, mkIssue_lineNumber]
    omega
  have hctx : issue.context = contextSlice (splitLines fileContent) i := by
    rw [hissue, mkIssue_context]
  rw [hln, hctx]
  refine ⟨hi, ?_, ?_, ?_⟩
  · unfold contextSlice CONTEXT_LINES
    have hmin : min (splitLines fileContent).length (i + 3 + 1) =
        min (i + 3) ((splitLines fileContent).length - 1) + 1 := by omega
    rw [hmin]
  · unfold contextSlice CONTEXT_LINES
    rw [List.length_take, List.length_drop]
    omega
  · intro s hs
    unfold contextSlice at hs
    exact List.mem_of_mem_drop (List.mem_of_mem_take hs)

/-- The issue found on the second line of `a`, `error two`, `c`. -/
def issueErrCtx : AnalyzedIssue :=
  { ruleId := "g", ruleName := "Error rule", severity := ErrorSeverity.ERROR,
    solution := "look above", matchContent := "error two", lineNumber := 2,
    context := ["a", "error two", "c"] }

/-- C6 (witness): for the match on line 2 of a 3-line log, the context
is the whole file (the window clamps at both ends), its length matches
the claimed formula, and all its lines come from the file. -/
theorem c6_context_bounds_witness :
    issueErrCtx.lineNumber - 1 < (splitLines "a\nerror two\nc").length ∧
      issueErrCtx.context =
        ((splitLines "a\nerror two\nc").drop (issueErrCtx.lineNumber - 1 - 3)).take
          (min (issueErrCtx.lineNumber - 1 + 3) ((splitLines "a\nerror two\nc").length - 1)
              + 1 - (issueErrCtx.lineNumber - 1 - 3)) ∧
      issueErrCtx.context.length =
        min (issueErrCtx.lineNumber - 1 + 3) ((splitLines "a\nerror two\nc").length - 1) -
            (issueErrCtx.lineNumber - 1 - 3) + 1 ∧
      ∀ s ∈ issueErrCtx.context, s ∈ splitLines "a\nerror two\nc" :=
  c6_context_bounds "a\nerror two\nc" "log.txt" [ruleError] "" 0 issueErrCtx (by decide)

end UnityLog
